import Mathlib

/-!
Verification of the SBOM generator (src/sbom.py).

The Python program is shallowly embedded: every function below is translated
from the corresponding function of src/sbom.py.  Filesystem contents, the
directory enumeration and the git subprocess are passed in explicitly, so each
source function becomes a pure, executable Lean function.  Machine strings are
Lean `String`s (a wrapper around `List Char` in this toolchain), and Python
exceptions that the source does not catch are modelled with `Except`.
-/

namespace Sbom

/-- The whitespace characters stripped by Python str.strip() (ASCII range):
space, tab, newline, carriage return, vertical tab, form feed. -/
def isPySpace (c : Char) : Bool :=
  c = ' ' || c = '\t' || c = '\n' || c = '\r' || c = '\x0b' || c = '\x0c'

/-- Python str.strip() on a character list: drop whitespace from both ends. -/
def pyStrip (l : List Char) : List Char :=
  (l.dropWhile isPySpace).rdropWhile isPySpace

/-- Python str.strip() on a string (used for commit.stdout.strip(), line 58). -/
def pyStripS (s : String) : String := (pyStrip s.data).asString

/-- The version-constraint operator characters of the pip dependency pattern:
the character class [<=>~] of line 109. -/
def isOpChar (c : Char) : Bool :=
  c = '<' || c = '=' || c = '>' || c = '~'

/-- raw_line.split("#", 1)[0] of line 125: everything before the first "#". -/
def splitHash (l : List Char) : List Char :=
  l.takeWhile (fun c => c != '#')

/-- re.match of the compiled pattern ([^<=>~]+)(\s*[<=>~]+\s*)(.*)? (line 109)
against the start of s, returning the three capture groups on success.

Derivation from the regex engine semantics: group 1 greedily takes the maximal
run of characters outside [<=>~]; it must be non-empty.  Group 2 then needs at
least one character of [<=>~]; its leading \s* is forced empty (whitespace is
not in [<=>~], so group 1 already consumed it), it greedily takes the maximal
run of operator characters and then the maximal run of whitespace.  Group 3
takes the remainder (the input is a single line, so "." matches every
remaining character).  No backtracking can rescue a failure: if the string has
no operator character after position 0 the mandatory [<=>~]+ can never match,
and if it starts with an operator character group 1 cannot match. -/
def depMatch (s : List Char) : Option (List Char × List Char × List Char) :=
  if s.takeWhile (fun c => !isOpChar c) = [] then none
  else if s.dropWhile (fun c => !isOpChar c) = [] then none
  else
    some (s.takeWhile (fun c => !isOpChar c),
          (s.dropWhile (fun c => !isOpChar c)).takeWhile isOpChar
            ++ ((s.dropWhile (fun c => !isOpChar c)).dropWhile isOpChar).takeWhile isPySpace,
          ((s.dropWhile (fun c => !isOpChar c)).dropWhile isOpChar).dropWhile isPySpace)

/-- The body of the requirements.txt line loop of create_sbom_data
(lines 119-141): strip the line, skip blanks and comment lines, strip the
inline comment, match the dependency pattern, and produce the (name, version)
pair of the emitted record (none when the line is skipped).  version is None
exactly when group 3 is empty (lines 137-140), otherwise it is
(operator + version).strip(). -/
def parseRequirementsLine (line : List Char) : Option (String × Option String) :=
  if pyStrip line = [] then none
  else if (pyStrip line).head? = some '#' then none
  else if pyStrip (splitHash (pyStrip line)) = [] then none
  else
    match depMatch (pyStrip (splitHash (pyStrip line))) with
    | none => none
    | some (g1, op, g3) =>
        some ((pyStrip g1).asString,
              if g3 = [] then none else some ((pyStrip (op ++ g3)).asString))

/-- A dependency record: one data row of the 2D sbom list
[name, version, "pip"|"npm", path, commit_hash].  version is an Option because
the pip branch stores Python None when no version is present (line 140). -/
structure Record where
  name : String
  version : Option String
  type : String
  path : String
  commit_hash : String
deriving DecidableEq

/-- Outcome of the git subprocess of git_commit_hash (lines 45-67): normal
termination with stdout, subprocess.CalledProcessError with stderr, or
FileNotFoundError (the git executable is absent). -/
inductive GitResult where
  | success (stdout : String)
  | failure (stderr : String)
  | notFound
deriving DecidableEq

/-- git_commit_hash (lines 45-67): stdout.strip() on success, the literal
40-zero sentinel on CalledProcessError, "" on FileNotFoundError. -/
def git_commit_hash (res : GitResult) : String :=
  match res with
  | .success out => pyStripS out
  | .failure _ => "0000000000000000000000000000000000000000"
  | .notFound => ""

/-- One entry produced by directory.iterdir() in get_all_repos: its path and
the three filesystem facts the function tests (lines 27-30). -/
structure DirEntry where
  path : String
  isDir : Bool
  hasRequirementsTxt : Bool
  hasPackageJson : Bool
deriving DecidableEq

/-- The repos dictionary built by get_all_repos (lines 23-26). -/
structure Repos where
  requirements_repos : List String
  package_json_repos : List String
deriving DecidableEq

/-- Lexicographic comparison of character lists by code point, the order
Python uses to sort the (sibling, same-parent) path strings in lines 38-39. -/
def lexLe : List Char → List Char → Bool
  | [], _ => true
  | _ :: _, [] => false
  | a :: as, b :: bs => if a < b then true else if b < a then false else lexLe as bs

/-- String order used by list.sort() on the collected paths. -/
def strLeRel : String → String → Prop := fun a b => lexLe a.data b.data = true

instance : DecidableRel strLeRel := fun a b =>
  inferInstanceAs (Decidable (lexLe a.data b.data = true))

/-- list.sort() on a list of path strings. -/
def sortStrings (l : List String) : List String :=
  List.insertionSort strLeRel l

/-- get_all_repos (lines 18-43): classify each directory entry by the presence
of requirements.txt and package.json, sort both lists, and return them
together with the printed total (line 41: the SUM of the two list lengths). -/
def get_all_repos (entries : List DirEntry) : Repos × Nat :=
  let requirements_repos :=
    sortStrings ((entries.filter (fun e => e.isDir && e.hasRequirementsTxt)).map DirEntry.path)
  let package_json_repos :=
    sortStrings ((entries.filter (fun e => e.isDir && e.hasPackageJson)).map DirEntry.path)
  (⟨requirements_repos, package_json_repos⟩,
   requirements_repos.length + package_json_repos.length)

/-- One value of the "packages" mapping of package-lock.json: its "version"
field, its "dev" flag and the keys of its "dependencies" mapping (only the
root entry has its dependencies read, line 86). -/
structure PackageInfo where
  version : Option String
  dev : Option Bool
  dependencies : List String
deriving DecidableEq

/-- Parsed package-lock.json: the "packages" mapping as an ordered
association list (Python dict iteration order). -/
structure LockData where
  packages : List (String × PackageInfo)
deriving DecidableEq

/-- The files of one repository directory: the lines of requirements.txt, the
items of the "dependencies" mapping of package.json, and the parsed
package-lock.json (none models FileNotFoundError in line 81). -/
structure RepoFiles where
  requirementsLines : List String
  packageDependencies : List (String × String)
  lock : Option LockData

/-- The separator string "node_modules/" of line 95 as a character list. -/
def nmSep : List Char := ['n', 'o', 'd', 'e', '_', 'm', 'o', 'd', 'u', 'l', 'e', 's', '/']

/-- Whether the first list is an initial segment of the second. -/
def startsWith : List Char → List Char → Bool
  | [], _ => true
  | _ :: _, [] => false
  | c :: cs, d :: ds => c = d && startsWith cs ds

/-- The suffix after the first occurrence of "node_modules/" in l, scanning
left to right; none when no occurrence exists. -/
def afterSep : List Char → Option (List Char)
  | [] => none
  | c :: rest =>
      if startsWith nmSep (c :: rest) then some ((c :: rest).drop nmSep.length)
      else afterSep rest

/-- The prefix of l before the next occurrence of "node_modules/". -/
def beforeSep : List Char → List Char
  | [] => []
  | c :: rest =>
      if startsWith nmSep (c :: rest) then []
      else c :: beforeSep rest

/-- path.split("node_modules/")[1] of line 95: Python splits at the
non-overlapping occurrences of the separator scanning left to right, so index
1 is the text strictly between the end of the first occurrence and the start
of the next one (or the end of the string).  none models the IndexError that
the subscript raises when the separator does not occur (a single-element
split). -/
def splitIndex1 (path : String) : Option String :=
  match afterSep path.data with
  | none => none
  | some suffix => some (beforeSep suffix).asString

/-- The message of the IndexError raised by a [1] subscript on a
single-element Python list. -/
def indexError : String := "list index out of range"

/-- The inner loop of get_indirect_dependencies (lines 88-99) over the items
of the "packages" mapping: skip the root "" key, skip entries whose dev flag
equals True, derive the package name with path.split("node_modules/")[1]
(raising IndexError when the separator is absent), and emit a record exactly
when the name is not in the direct-dependency set.  An error aborts the whole
iteration, as an uncaught Python exception does. -/
def processEntries (git : String → GitResult) (repoPath lockPath : String)
    (direct : List String) : List (String × PackageInfo) → Except String (List Record)
  | [] => .ok []
  | (path, info) :: rest =>
      if path = "" then processEntries git repoPath lockPath direct rest
      else if info.dev = some true then processEntries git repoPath lockPath direct rest
      else
        match splitIndex1 path with
        | none => .error indexError
        | some package_name =>
            match processEntries git repoPath lockPath direct rest with
            | .error e => .error e
            | .ok recs =>
                if direct.contains package_name then .ok recs
                else .ok (⟨package_name, some (info.version.getD ""), "npm", lockPath,
                           git_commit_hash (git repoPath)⟩ :: recs)

/-- lock_data.get("packages", {}).get("", {}).get("dependencies", {}) keys
(lines 85-86): the direct-dependency set of the lockfile root. -/
def rootDirectDependencies (lock : LockData) : List String :=
  match lock.packages.lookup "" with
  | some info => info.dependencies
  | none => []

/-- The per-repository body of get_indirect_dependencies (lines 74-99): a
missing package-lock.json is logged and skipped (continue, line 83),
otherwise the packages mapping is processed. -/
def repoIndirect (git : String → GitResult) (fs : String → RepoFiles)
    (repoPath : String) : Except String (List Record) :=
  match (fs repoPath).lock with
  | none => .ok []
  | some lock =>
      processEntries git repoPath (repoPath ++ "/package-lock.json")
        (rootDirectDependencies lock) lock.packages

/-- get_indirect_dependencies (lines 70-101) over the npm repository list,
collecting the emitted records in iteration order. -/
def get_indirect_dependencies (git : String → GitResult) (fs : String → RepoFiles) :
    List String → Except String (List Record)
  | [] => .ok []
  | p :: ps =>
      match repoIndirect git fs p with
      | .error e => .error e
      | .ok recs =>
          match get_indirect_dependencies git fs ps with
          | .error e => .error e
          | .ok rest => .ok (recs ++ rest)

/-- One requirements.txt line of the pip loop of create_sbom_data
(lines 119-146), as the record it contributes (none when skipped). -/
def pipLineRecord (git : String → GitResult) (repoPath : String) (line : String) :
    Option Record :=
  match parseRequirementsLine line.data with
  | none => none
  | some (name, version) =>
      some ⟨name, version, "pip", repoPath ++ "/requirements.txt",
            git_commit_hash (git repoPath)⟩

/-- The pip branch of create_sbom_data (lines 114-146) for one repository. -/
def pipRepoRecords (git : String → GitResult) (fs : String → RepoFiles)
    (repoPath : String) : List Record :=
  ((fs repoPath).requirementsLines).filterMap (pipLineRecord git repoPath)

/-- The npm direct branch of create_sbom_data (lines 148-163) for one
repository: one record per item of the "dependencies" mapping. -/
def npmRepoRecords (git : String → GitResult) (fs : String → RepoFiles)
    (repoPath : String) : List Record :=
  ((fs repoPath).packageDependencies).map
    (fun nv => ⟨nv.1, some nv.2, "npm", repoPath ++ "/package.json",
                git_commit_hash (git repoPath)⟩)

/-- All records assembled by create_sbom_data (lines 106-169), in emission
order: pip records, then npm direct records, then the indirect records
appended by sbom_data.extend (line 167).  The Except propagates the uncaught
IndexError of get_indirect_dependencies. -/
def sbom_records (git : String → GitResult) (fs : String → RepoFiles)
    (repos : Repos) : Except String (List Record) :=
  match get_indirect_dependencies git fs repos.package_json_repos with
  | .error e => .error e
  | .ok indirect =>
      .ok ((repos.requirements_repos.map (pipRepoRecords git fs)).flatten
           ++ (repos.package_json_repos.map (npmRepoRecords git fs)).flatten
           ++ indirect)

/-- A row of the 2D sbom_data list: Python strings and (for the pip version
cell) None. -/
abbrev Row := List (Option String)

/-- The header row of line 111. -/
def headerRow : Row :=
  [some "name", some "version", some "type", some "path", some "commit_hash"]

/-- The data row [name, version, type, path, commit_hash] of a record
(lines 144 and 161 and 99). -/
def recordRow (r : Record) : Row :=
  [some r.name, r.version, some r.type, some r.path, some r.commit_hash]

/-- create_sbom_data (lines 106-169): the header row followed by one data row
per emitted record. -/
def create_sbom_data (git : String → GitResult) (fs : String → RepoFiles)
    (repos : Repos) : Except String (List Row) :=
  match sbom_records git fs repos with
  | .error e => .error e
  | .ok recs => .ok (headerRow :: recs.map recordRow)

/-- Whether the csv module QUOTE_MINIMAL policy quotes a field written with
delimiter "," and lineterminator "\n": it does exactly when the field
contains the delimiter, the quote character, or a carriage return or
newline. -/
def needsQuote (s : String) : Bool :=
  s.data.any (fun c => c = ',' || c = '"' || c = '\r' || c = '\n')

/-- One cell as csv.writer emits it: Python None becomes the empty string,
and a field needing quotes is wrapped in double quotes with inner double
quotes doubled. -/
def csvField (cell : Option String) : String :=
  match cell with
  | none => ""
  | some s => if needsQuote s then "\"" ++ s.replace "\"" "\"\"" ++ "\"" else s

/-- One row as csv.writer emits it with delimiter "," and
lineterminator "\n" (lines 180-183). -/
def csvLine (row : Row) : String :=
  String.intercalate "," (row.map csvField) ++ "\n"

/-- create_sbom_csv (lines 171-185): when sbom_data has fewer than 2 rows the
file is not created and a skip message is logged (modelled by none);
otherwise the full text written to sbom.csv in the scanned root directory. -/
def create_sbom_csv (sbom_data : List Row) : Option String :=
  if sbom_data.length < 2 then none
  else some (String.join (sbom_data.map csvLine))

/-- create_sbom_json (lines 187-206): when sbom_data has fewer than 2 rows the
file is not created and a skip message is logged (modelled by none);
otherwise the array of objects dict(zip(headers, row)) written to sbom.json,
each object an ordered list of key-value pairs (json.dump serializes this
structure deterministically with 2-space indentation). -/
def create_sbom_json (sbom_data : List Row) :
    Option (List (List (Option String × Option String))) :=
  if sbom_data.length < 2 then none
  else some ((sbom_data.drop 1).map (fun row => (sbom_data.headD []).zip row))

/-- The logical records read back from the generated sbom.json: one tuple of
values per object, in header-key order.  json.dump round-trips each value
(Python None as JSON null), so reading back yields exactly the zipped
values. -/
def jsonDecodedRows (sbom_data : List Row) : List (List (Option String)) :=
  (sbom_data.drop 1).map (fun row => ((sbom_data.headD []).zip row).map Prod.snd)

/-- The logical records read back from the generated sbom.csv: one tuple of
strings per data row.  csv.writer with QUOTE_MINIMAL round-trips every string
field through a standard csv reader, and writes Python None as the empty
string, so reading back yields each cell with None collapsed to "". -/
def csvDecodedRows (sbom_data : List Row) : List (List String) :=
  (sbom_data.drop 1).map (fun row => row.map (fun c => c.getD ""))

/-- The whole pipeline of the __main__ block (lines 208-214) after argument
parsing: discover repositories, assemble sbom_data, and produce both writer
outputs.  git and fs are the fixed external state (git results per repository
path and file contents per repository path). -/
def runPipeline (git : String → GitResult) (fs : String → RepoFiles)
    (entries : List DirEntry) :
    Except String (Option String × Option (List (List (Option String × Option String)))) :=
  match create_sbom_data git fs (get_all_repos entries).1 with
  | .error e => .error e
  | .ok d => .ok (create_sbom_csv d, create_sbom_json d)

/-- Following the claim wording of C9 (spec section 4.1): the number of
immediate subdirectories of the root that qualify as repositories, a
directory containing both manifests counted once.  Stated from the spec for
comparison with the count printed by get_all_repos. -/
def specRepoCount (entries : List DirEntry) : Nat :=
  (entries.filter (fun e => e.isDir && (e.hasRequirementsTxt || e.hasPackageJson))).length

instance {ε α : Type} [DecidableEq ε] [DecidableEq α] : DecidableEq (Except ε α)
  | .error e, .error f =>
      if h : e = f then isTrue (by rw [h]) else isFalse (by simp [h])
  | .error _, .ok _ => isFalse (by simp)
  | .ok _, .error _ => isFalse (by simp)
  | .ok a, .ok b =>
      if h : a = b then isTrue (by rw [h]) else isFalse (by simp [h])

/-- A git environment in which the executable is absent everywhere (used for
concrete test fixtures; git_commit_hash then returns ""). -/
def gitNone : String → GitResult := fun _ => GitResult.notFound

/-- A repository directory with no manifest content at all. -/
def emptyRepoFiles : RepoFiles := ⟨[], [], none⟩

/-! ### Properties of the path order used by list.sort -/

theorem lexLe_total : ∀ a b : List Char, lexLe a b = true ∨ lexLe b a = true
  | [], _ => Or.inl rfl
  | _ :: _, [] => Or.inr rfl
  | a :: as, b :: bs => by
      rcases lt_trichotomy a b with h | h | h
      · exact Or.inl (by simp [lexLe, h])
      · subst h
        rcases lexLe_total as bs with ih | ih
        · exact Or.inl (by simp [lexLe, lt_irrefl, ih])
        · exact Or.inr (by simp [lexLe, lt_irrefl, ih])
      · exact Or.inr (by simp [lexLe, h])

theorem lexLe_trans :
    ∀ a b c : List Char, lexLe a b = true → lexLe b c = true → lexLe a c = true
  | [], _, _, _, _ => rfl
  | _ :: _, [], _, h1, _ => by simp [lexLe] at h1
  | _ :: _, _ :: _, [], _, h2 => by simp [lexLe] at h2
  | a :: as, b :: bs, c :: cs, h1, h2 => by
      rcases lt_trichotomy a b with hab | hab | hab
      · rcases lt_trichotomy b c with hbc | hbc | hbc
        · simp [lexLe, lt_trans hab hbc]
        · subst hbc; simp [lexLe, hab]
        · simp [lexLe, asymm hbc, hbc] at h2
      · subst hab
        rcases lt_trichotomy a c with hbc | hbc | hbc
        · simp [lexLe, hbc]
        · subst hbc
          simp [lexLe, lt_irrefl] at h1 h2 ⊢
          exact lexLe_trans as bs cs h1 h2
        · simp [lexLe, asymm hbc, hbc] at h2
      · simp [lexLe, asymm hab, hab] at h1

theorem lexLe_antisymm :
    ∀ a b : List Char, lexLe a b = true → lexLe b a = true → a = b
  | [], [], _, _ => rfl
  | [], _ :: _, _, h2 => by simp [lexLe] at h2
  | _ :: _, [], h1, _ => by simp [lexLe] at h1
  | a :: as, b :: bs, h1, h2 => by
      rcases lt_trichotomy a b with hab | hab | hab
      · simp [lexLe, asymm hab, hab] at h2
      · subst hab
        simp [lexLe, lt_irrefl] at h1 h2
        rw [lexLe_antisymm as bs h1 h2]
      · simp [lexLe, asymm hab, hab] at h1

instance : IsTotal String strLeRel :=
  ⟨fun a b => lexLe_total a.data b.data⟩

instance : IsTrans String strLeRel :=
  ⟨fun a b c => lexLe_trans a.data b.data c.data⟩

instance : IsAntisymm String strLeRel :=
  ⟨fun a b h1 h2 => by
    cases a; cases b
    exact congrArg String.mk (lexLe_antisymm _ _ h1 h2)⟩

/-- Sorting is invariant under permutation of the input: the sorted results
of two enumerations of the same multiset of paths coincide. -/
theorem sortStrings_perm_congr {a b : List String} (h : a.Perm b) :
    sortStrings a = sortStrings b :=
  List.eq_of_perm_of_sorted
    (( List.perm_insertionSort strLeRel a).trans
      (h.trans ( List.perm_insertionSort strLeRel b).symm))
    ( List.sorted_insertionSort strLeRel a)
    ( List.sorted_insertionSort strLeRel b)

theorem sortStrings_length (l : List String) :
    (sortStrings l).length = l.length :=
  ( List.perm_insertionSort strLeRel l).length_eq

/-! ### Helper lemmas about the pip line parser -/

theorem mem_pyStrip {l : List Char} {c : Char} (hc : c ∈ pyStrip l) : c ∈ l :=
  ( List.dropWhile_sublist isPySpace).subset
    (( List.rdropWhile_prefix isPySpace (l.dropWhile isPySpace)).sublist.subset hc)

theorem mem_splitHash {l : List Char} {c : Char} (hc : c ∈ splitHash l) : c ∈ l :=
  ( List.takeWhile_sublist _).subset hc

theorem head?_dropWhile_false (p : Char → Bool) :
    ∀ (l : List Char) {c : Char}, (l.dropWhile p).head? = some c → p c = false
  | [], _, h => by simp at h
  | d :: ds, c, h => by
      by_cases hp : p d
      · rw [List.dropWhile_cons, if_pos hp] at h
        exact head?_dropWhile_false p ds h
      · rw [List.dropWhile_cons, if_neg hp] at h
        simp only [List.head?_cons, Option.some.injEq] at h
        rw [← h]
        exact Bool.eq_false_iff.mpr hp

theorem pyStrip_head?_false {l : List Char} {c : Char}
    (h : (pyStrip l).head? = some c) : isPySpace c = false := by
  unfold pyStrip at h
  obtain ⟨t, ht⟩ := List.rdropWhile_prefix isPySpace (l.dropWhile isPySpace)
  cases hps : (l.dropWhile isPySpace).rdropWhile isPySpace with
  | nil => rw [hps] at h; simp at h
  | cons d ds =>
      rw [hps] at h ht
      simp only [List.head?_cons, Option.some.injEq] at h
      have hd : (l.dropWhile isPySpace).head? = some d := by
        rw [← ht]; rfl
      exact h ▸ head?_dropWhile_false isPySpace l hd

theorem pyStrip_ne_nil_of_mem {l : List Char} {c : Char} (hc : c ∈ l)
    (hs : isPySpace c = false) : pyStrip l ≠ [] := by
  intro hnil
  unfold pyStrip at hnil
  rw [List.rdropWhile_eq_nil_iff] at hnil
  have hcd : c ∈ l.dropWhile isPySpace := by
    rcases List.mem_append.mp ( List.takeWhile_append_dropWhile (p := isPySpace) (l := l) ▸ hc)
      with h | h
    · exact absurd ( List.mem_takeWhile_imp h) (by simp [hs])
    · exact h
  exact absurd (hnil c hcd) (by simp [hs])

theorem asString_ne_empty {l : List Char} (h : l ≠ []) : l.asString ≠ "" := by
  cases l with
  | nil => exact absurd rfl h
  | cons c cs =>
      intro he
      exact List.noConfusion (show c :: cs = ([] : List Char) from congrArg String.data he)

theorem depMatch_some {s g1 g2 g3 : List Char}
    (h : depMatch s = some (g1, g2, g3)) :
    g1 = s.takeWhile (fun c => !isOpChar c) ∧ g1 ≠ [] := by
  unfold depMatch at h
  split at h
  · cases h
  · split at h
    · cases h
    · simp only [Option.some.injEq, Prod.mk.injEq] at h
      rename_i hne _
      exact ⟨h.1.symm, h.1.symm ▸ hne⟩

theorem parseRequirementsLine_name_ne {l : List Char} {name : String}
    {v : Option String} (h : parseRequirementsLine l = some (name, v)) :
    name ≠ "" := by
  unfold parseRequirementsLine at h
  split at h
  · cases h
  split at h
  · cases h
  split at h
  · cases h
  rename_i hraw hhash hdep
  split at h
  · cases h
  rename_i g1 op g3 hm
  simp only [Option.some.injEq, Prod.mk.injEq] at h
  obtain ⟨hg1, hne⟩ := depMatch_some hm
  rw [← h.1]
  cases hD : pyStrip (splitHash (pyStrip l)) with
  | nil => exact absurd hD hdep
  | cons c0 D' =>
      have hc0 : isPySpace c0 = false :=
        pyStrip_head?_false (l := splitHash (pyStrip l)) (by rw [hD]; rfl)
      rw [hD] at hg1
      rw [List.takeWhile_cons] at hg1
      by_cases hq : (!isOpChar c0) = true
      · rw [if_pos hq] at hg1
        have hmem : c0 ∈ g1 := hg1 ▸ List.mem_cons_self c0 _
        exact asString_ne_empty (pyStrip_ne_nil_of_mem hmem hc0)
      · rw [if_neg hq] at hg1
        exact absurd hg1 hne

/-- The shape of a successful create_sbom_data result: the header row
followed by the data rows of the emitted records. -/
theorem create_sbom_data_shape {git : String → GitResult} {fs : String → RepoFiles}
    {repos : Repos} {d : List Row} (h : create_sbom_data git fs repos = .ok d) :
    ∃ recs, sbom_records git fs repos = .ok recs
      ∧ d = headerRow :: recs.map recordRow := by
  unfold create_sbom_data at h
  split at h
  · cases h
  · rename_i recs heq
    cases h
    exact ⟨recs, heq, rfl⟩

/-! ### Helper lemmas about the lockfile resolver -/

theorem processEntries_types (git : String → GitResult) (rp lp : String)
    (direct : List String) :
    ∀ (es : List (String × PackageInfo)) (recs : List Record),
      processEntries git rp lp direct es = .ok recs → ∀ r ∈ recs, r.type = "npm"
  | [], recs, h, r, hr => by cases h; simp at hr
  | (p, i) :: rest, recs, h, r, hr => by
      unfold processEntries at h
      split at h
      · exact processEntries_types git rp lp direct rest recs h r hr
      split at h
      · exact processEntries_types git rp lp direct rest recs h r hr
      split at h
      · cases h
      split at h
      · cases h
      rename_i recs' heq
      split at h
      · cases h
        exact processEntries_types git rp lp direct rest _ heq r hr
      · cases h
        rcases List.mem_cons.mp hr with hr | hr
        · rw [hr]
        · exact processEntries_types git rp lp direct rest _ heq r hr

theorem repoIndirect_types (git : String → GitResult) (fs : String → RepoFiles)
    (p : String) (recs : List Record) (h : repoIndirect git fs p = .ok recs) :
    ∀ r ∈ recs, r.type = "npm" := by
  unfold repoIndirect at h
  split at h
  · cases h; simp
  · exact processEntries_types git p _ _ _ recs h

theorem get_indirect_types (git : String → GitResult) (fs : String → RepoFiles) :
    ∀ (ps : List String) (recs : List Record),
      get_indirect_dependencies git fs ps = .ok recs → ∀ r ∈ recs, r.type = "npm"
  | [], recs, h, r, hr => by cases h; simp at hr
  | p :: ps, recs, h, r, hr => by
      unfold get_indirect_dependencies at h
      split at h
      · cases h
      rename_i recs1 heq1
      split at h
      · cases h
      rename_i recs2 heq2
      cases h
      rcases List.mem_append.mp hr with hr | hr
      · exact repoIndirect_types git fs p recs1 heq1 r hr
      · exact get_indirect_types git fs ps recs2 heq2 r hr

theorem processEntries_ok_or_error (git : String → GitResult) (rp lp : String)
    (direct : List String) :
    ∀ es : List (String × PackageInfo),
      (∃ l, processEntries git rp lp direct es = .ok l)
      ∨ processEntries git rp lp direct es = .error indexError
  | [] => Or.inl ⟨[], rfl⟩
  | (p, i) :: rest => by
      unfold processEntries
      split
      · exact processEntries_ok_or_error git rp lp direct rest
      split
      · exact processEntries_ok_or_error git rp lp direct rest
      split
      · exact Or.inr rfl
      rcases processEntries_ok_or_error git rp lp direct rest with ⟨l, hl⟩ | he
      · simp only [hl]
        split
        · exact Or.inl ⟨l, rfl⟩
        · exact Or.inl ⟨_ :: l, rfl⟩
      · simp only [he]
        exact Or.inr trivial

theorem processEntries_ne_ok (git : String → GitResult) (rp lp : String)
    (direct : List String) (key : String) (info : PackageInfo)
    (hk : key ≠ "") (hdev : info.dev ≠ some true) (hsplit : splitIndex1 key = none) :
    ∀ (es : List (String × PackageInfo)), (key, info) ∈ es →
      ∀ l, processEntries git rp lp direct es ≠ .ok l
  | [], hmem, l => by simp at hmem
  | (p, i) :: rest, hmem, l => by
      rcases List.mem_cons.mp hmem with heq | hmem'
      · injection heq with h1 h2
        subst h1; subst h2
        intro hok
        unfold processEntries at hok
        rw [if_neg hk, if_neg hdev] at hok
        simp only [hsplit] at hok
        exact Except.noConfusion hok
      · intro hok
        unfold processEntries at hok
        split at hok
        · exact processEntries_ne_ok git rp lp direct key info hk hdev hsplit rest hmem' l hok
        split at hok
        · exact processEntries_ne_ok git rp lp direct key info hk hdev hsplit rest hmem' l hok
        split at hok
        · exact Except.noConfusion hok
        split at hok
        · exact Except.noConfusion hok
        · rename_i recs' heq
          exact processEntries_ne_ok git rp lp direct key info hk hdev hsplit rest hmem' recs' heq

theorem repoIndirect_ok_or_error (git : String → GitResult) (fs : String → RepoFiles)
    (p : String) :
    (∃ l, repoIndirect git fs p = .ok l) ∨ repoIndirect git fs p = .error indexError := by
  unfold repoIndirect
  split
  · exact Or.inl ⟨[], rfl⟩
  · exact processEntries_ok_or_error git p _ _ _

theorem get_indirect_ok_or_error (git : String → GitResult) (fs : String → RepoFiles) :
    ∀ ps : List String,
      (∃ l, get_indirect_dependencies git fs ps = .ok l)
      ∨ get_indirect_dependencies git fs ps = .error indexError
  | [] => Or.inl ⟨[], rfl⟩
  | p :: ps => by
      unfold get_indirect_dependencies
      rcases repoIndirect_ok_or_error git fs p with ⟨l1, h1⟩ | h1
      · simp only [h1]
        rcases get_indirect_ok_or_error git fs ps with ⟨l2, h2⟩ | h2
        · simp only [h2]
          exact Or.inl ⟨l1 ++ l2, rfl⟩
        · simp only [h2]
          exact Or.inr trivial
      · simp only [h1]
        exact Or.inr trivial

theorem get_indirect_ne_ok (git : String → GitResult) (fs : String → RepoFiles)
    (repoPath key : String) (info : PackageInfo) (lock : LockData)
    (hlock : (fs repoPath).lock = some lock) (hmem : (key, info) ∈ lock.packages)
    (hk : key ≠ "") (hdev : info.dev ≠ some true) (hsplit : splitIndex1 key = none) :
    ∀ ps : List String, repoPath ∈ ps →
      ∀ l, get_indirect_dependencies git fs ps ≠ .ok l
  | [], hmem', l => by simp at hmem'
  | p :: ps, hmem', l => by
      intro hok
      unfold get_indirect_dependencies at hok
      rcases List.mem_cons.mp hmem' with rfl | hmem''
      · have hbad : ∀ l', repoIndirect git fs repoPath ≠ .ok l' := by
          intro l' h'
          unfold repoIndirect at h'
          rw [hlock] at h'
          exact processEntries_ne_ok git repoPath _ _ key info hk hdev hsplit
            lock.packages hmem l' h'
        rcases repoIndirect_ok_or_error git fs repoPath with ⟨l1, h1⟩ | h1
        · exact hbad l1 h1
        · simp only [h1] at hok
          exact Except.noConfusion hok
      · rcases repoIndirect_ok_or_error git fs p with ⟨l1, h1⟩ | h1
        · simp only [h1] at hok
          rcases get_indirect_ok_or_error git fs ps with ⟨l2, h2⟩ | h2
          · exact get_indirect_ne_ok git fs repoPath key info lock hlock hmem hk hdev
              hsplit ps hmem'' l2 h2
          · simp only [h2] at hok
            exact Except.noConfusion hok
        · simp only [h1] at hok
          exact Except.noConfusion hok

/-! ### Claim C1 -/

/-- The npm repository of the C1 example: root declares lodash directly, and
the lockfile contains the nested entry
node_modules/lodash/node_modules/semver with version 7.0.0 and no dev flag. -/
def fsC1 : String → RepoFiles := fun p =>
  if p = "a" then
    { requirementsLines := [],
      packageDependencies := [("lodash", "^4.17.21")],
      lock := some ⟨[("", ⟨none, none, ["lodash"]⟩),
                     ("node_modules/lodash", ⟨some "4.17.21", none, []⟩),
                     ("node_modules/lodash/node_modules/semver", ⟨some "7.0.0", none, []⟩)]⟩ }
  else emptyRepoFiles

/-- C1: the claim says the resolver derives the package name from the segment
after the LAST "node_modules/" separator and hence emits a record named
"semver" for the nested entry.  The code (line 95) subscripts index 1 of the
split, the segment after the FIRST separator: on the C1 example it emits
exactly one indirect record, named "lodash/" (not "semver", and not
"lodash"), with the entry's version 7.0.0.  This contradicts the specified
derivation rule and its worked example: the code, not the claim, is at
fault. -/
theorem c1_resolver_uses_first_separator :
    get_indirect_dependencies gitNone fsC1 ["a"]
        = .ok [⟨"lodash/", some "7.0.0", "npm", "a/package-lock.json", ""⟩]
    ∧ splitIndex1 "node_modules/lodash/node_modules/semver" = some "lodash/" :=
  ⟨rfl, rfl⟩

/-! ### Claim C2 -/

/-- C2 (amended): a requirements.txt line that is a bare package name - one
containing no version-constraint operator character at all - produces NO
record: the mandatory operator group of the pattern cannot match, so the line
is silently skipped (the claim said such a line yields one record with an
absent version; version is absent only when an operator is present with an
empty version string). -/
theorem c2_bare_name_line_skipped {l : List Char}
    (h : ∀ c ∈ l, isOpChar c = false) :
    parseRequirementsLine l = none := by
  unfold parseRequirementsLine
  split
  · rfl
  split
  · rfl
  split
  · rfl
  have hdrop : (pyStrip (splitHash (pyStrip l))).dropWhile (fun c => !isOpChar c) = [] := by
    rw [List.dropWhile_eq_nil_iff]
    intro c hc
    simp [h c (mem_pyStrip (mem_splitHash (mem_pyStrip hc)))]
  have hdm : depMatch (pyStrip (splitHash (pyStrip l))) = none := by
    unfold depMatch
    simp [hdrop]
  rw [hdm]

/-- A pip repository whose requirements.txt is the single line "flask". -/
def fsC2 : String → RepoFiles := fun p =>
  if p = "r" then ⟨["flask"], [], none⟩ else emptyRepoFiles

/-- C2 counterexample: on the claim's own input, the single line "flask", the
pip parser emits NO record at all - create_sbom_data returns only the header
row - refuting the claimed record with name "flask" and absent version. -/
theorem c2_counterexample_flask :
    create_sbom_data gitNone fsC2 ⟨["r"], []⟩ = .ok [headerRow]
    ∧ parseRequirementsLine "flask".data = none :=
  ⟨rfl, rfl⟩

/-- Witness for c2_bare_name_line_skipped at the line "flask". -/
theorem c2_witness :
    (∀ c ∈ "flask".data, isOpChar c = false)
    ∧ parseRequirementsLine "flask".data = none :=
  ⟨by decide, c2_bare_name_line_skipped (by decide)⟩

/-! ### Claim C6 -/

/-- C6: the commit annotator has exactly three outcomes, one per constructor
of GitResult (the function is total, modelling that it never raises): the
stripped stdout on success, the 40-character all-zero sentinel on command
failure, and the empty string when git is absent. -/
theorem c6_git_commit_hash_outcomes :
    (∀ out, git_commit_hash (GitResult.success out) = pyStripS out)
    ∧ (∀ err, git_commit_hash (GitResult.failure err)
          = "0000000000000000000000000000000000000000")
    ∧ (∀ err, (git_commit_hash (GitResult.failure err)).length = 40)
    ∧ (∀ err, ∀ c ∈ (git_commit_hash (GitResult.failure err)).data, c = '0')
    ∧ git_commit_hash GitResult.notFound = ""
    ∧ ∀ g : GitResult, g = GitResult.notFound ∨ (∃ out, g = GitResult.success out)
        ∨ ∃ err, g = GitResult.failure err := by
  refine ⟨fun _ => rfl, fun _ => rfl, fun _ => rfl,
    fun _ => by
      show ∀ c ∈ ("0000000000000000000000000000000000000000" : String).data, c = '0'
      decide,
    rfl, fun g => ?_⟩
  cases g with
  | success out => exact Or.inr (Or.inl ⟨out, rfl⟩)
  | failure err => exact Or.inr (Or.inr ⟨err, rfl⟩)
  | notFound => exact Or.inl rfl

/-! ### Claim C8 -/

/-- A pip repository whose requirements.txt is the single line
"numpy==1.2.3  # pinned". -/
def fsC8 : String → RepoFiles := fun p =>
  if p = "r" then ⟨["numpy==1.2.3  # pinned"], [], none⟩ else emptyRepoFiles

/-- C8: on the line "numpy==1.2.3  # pinned" the pip parser strips the inline
comment and emits exactly one record, name "numpy", version "==1.2.3" (the
operator concatenated with the version string). -/
theorem c8_inline_comment_stripped :
    create_sbom_data gitNone fsC8 ⟨["r"], []⟩
      = .ok [headerRow,
             recordRow ⟨"numpy", some "==1.2.3", "pip", "r/requirements.txt", ""⟩]
    ∧ parseRequirementsLine "numpy==1.2.3  # pinned".data
        = some ("numpy", some "==1.2.3") :=
  ⟨rfl, rfl⟩

/-! ### Claim C9 -/

/-- A directory containing both requirements.txt and package.json. -/
def entryC9 : DirEntry := ⟨"a", true, true, true⟩

/-- C9 counterexample: for a root with a single subdirectory holding BOTH
manifests, get_all_repos prints 2 (the sum of the two list lengths,
line 41), while the number of qualifying subdirectories - the count the claim
specifies - is 1. -/
theorem c9_counterexample_double_count :
    (get_all_repos [entryC9]).2 ≠ specRepoCount [entryC9]
    ∧ (get_all_repos [entryC9]).2 = 2
    ∧ specRepoCount [entryC9] = 1 := by
  refine ⟨by decide, rfl, rfl⟩

/-- C9 (amended): the printed count equals the number of subdirectories
containing requirements.txt PLUS the number containing package.json, so a
directory with both manifests is counted twice. -/
theorem c9_printed_count (entries : List DirEntry) :
    (get_all_repos entries).2
      = (entries.filter (fun e => e.isDir && e.hasRequirementsTxt)).length
        + (entries.filter (fun e => e.isDir && e.hasPackageJson)).length := by
  simp [get_all_repos, sortStrings_length]

/-! ### Claim C3 -/

/-- An npm repository whose package.json "dependencies" mapping has the empty
string as a key (legal structured data, read verbatim by lines 155-163). -/
def fsC3 : String → RepoFiles := fun p =>
  if p = "a" then ⟨[], [("", "1.0.0")], none⟩ else emptyRepoFiles

/-- C3 counterexample: the claim quantifies over every input, but the npm
direct parser copies manifest keys verbatim, so a package.json with the empty
string as a dependencies key produces a record whose name IS the empty
string. -/
theorem c3_counterexample_empty_name :
    sbom_records gitNone fsC3 ⟨[], ["a"]⟩
        = .ok [⟨"", some "1.0.0", "npm", "a/package.json", ""⟩]
    ∧ ¬ ∀ r ∈ [(⟨"", some "1.0.0", "npm", "a/package.json", ""⟩ : Record)],
          r.name ≠ "" :=
  ⟨rfl, by decide⟩

/-- C3 (amended): every emitted record carries a non-empty ecosystem tag,
which is always the literal "pip" or "npm"; every PIP record additionally has
a non-empty name (the pattern's first group starts with a non-whitespace,
non-operator character).  npm record names are taken verbatim from manifest
keys and lockfile path segments and can be empty for degenerate inputs, as
c3_counterexample_empty_name shows. -/
theorem c3_record_invariants {git : String → GitResult} {fs : String → RepoFiles}
    {repos : Repos} {recs : List Record}
    (h : sbom_records git fs repos = .ok recs) :
    ∀ r ∈ recs, r.type ≠ "" ∧ (r.type = "pip" ∨ r.type = "npm")
      ∧ (r.type = "pip" → r.name ≠ "") := by
  intro r hr
  unfold sbom_records at h
  split at h
  · cases h
  rename_i indirect heq
  cases h
  rcases List.mem_append.mp hr with hr | hr
  · rcases List.mem_append.mp hr with hr | hr
    · obtain ⟨lrecs, hl, hrl⟩ := List.mem_flatten.mp hr
      obtain ⟨rp, hrp, rfl⟩ := List.mem_map.mp hl
      obtain ⟨line, hline, hplr⟩ := List.mem_filterMap.mp hrl
      unfold pipLineRecord at hplr
      split at hplr
      · cases hplr
      rename_i name version heq2
      cases hplr
      exact ⟨by simp, Or.inl rfl, fun _ => parseRequirementsLine_name_ne heq2⟩
    · obtain ⟨lrecs, hl, hrl⟩ := List.mem_flatten.mp hr
      obtain ⟨rp, hrp, rfl⟩ := List.mem_map.mp hl
      obtain ⟨nv, hnv, rfl⟩ := List.mem_map.mp hrl
      exact ⟨by simp, Or.inr rfl, fun hc => absurd hc (by simp)⟩
  · have hnpm := get_indirect_types git fs repos.package_json_repos indirect heq r hr
    refine ⟨by rw [hnpm]; simp, Or.inr hnpm, fun hc => ?_⟩
    rw [hnpm] at hc
    exact absurd hc (by simp)

/-- The repositories of the C3 witness: one pip repo and one npm repo. -/
def fsC3w : String → RepoFiles := fun p =>
  if p = "r" then ⟨["numpy==1.0"], [], none⟩
  else if p = "n" then ⟨[], [("lodash", "^4")], none⟩
  else emptyRepoFiles

/-- Witness for c3_record_invariants on a run emitting one pip and one npm
record. -/
theorem c3_witness :
    (sbom_records gitNone fsC3w ⟨["r"], ["n"]⟩
        = .ok [⟨"numpy", some "==1.0", "pip", "r/requirements.txt", ""⟩,
               ⟨"lodash", some "^4", "npm", "n/package.json", ""⟩])
    ∧ ∀ r ∈ [(⟨"numpy", some "==1.0", "pip", "r/requirements.txt", ""⟩ : Record),
             ⟨"lodash", some "^4", "npm", "n/package.json", ""⟩],
        r.type ≠ "" ∧ (r.type = "pip" ∨ r.type = "npm")
          ∧ (r.type = "pip" → r.name ≠ "") :=
  ⟨rfl, @c3_record_invariants gitNone fsC3w ⟨["r"], ["n"]⟩ _ (by rfl)⟩

/-! ### Claim C7 -/

/-- C7: for any assembled sbom_data, the writers create no file exactly when
there are zero data rows after the header (each returning none, which models
the logged skip of lines 174-176 and 190-192), and both produce output when
at least one data row exists. -/
theorem c7_writers_skip_iff_no_rows {git : String → GitResult}
    {fs : String → RepoFiles} {repos : Repos} {d : List Row}
    (h : create_sbom_data git fs repos = .ok d) :
    (d.drop 1 = [] → create_sbom_csv d = none ∧ create_sbom_json d = none)
    ∧ (d.drop 1 ≠ [] → (∃ s, create_sbom_csv d = some s)
        ∧ ∃ j, create_sbom_json d = some j) := by
  obtain ⟨recs, -, rfl⟩ := create_sbom_data_shape h
  cases recs with
  | nil => exact ⟨fun _ => ⟨rfl, rfl⟩, fun hne => absurd rfl hne⟩
  | cons r rs =>
      have hlen : ¬ (headerRow :: ((r :: rs).map recordRow)).length < 2 := by
        simp
      refine ⟨fun hnil => by simp at hnil, fun _ => ⟨?_, ?_⟩⟩
      · unfold create_sbom_csv
        rw [if_neg hlen]
        exact ⟨_, rfl⟩
      · unfold create_sbom_json
        rw [if_neg hlen]
        exact ⟨_, rfl⟩

/-- A pip repository emitting exactly one record, for the C7 witness. -/
def fsC7 : String → RepoFiles := fun p =>
  if p = "r" then ⟨["requests==2.0"], [], none⟩ else emptyRepoFiles

/-! ### Claim C4 -/

/-- C4: determinism - the discovered repository lists, and with them the whole
pipeline output (the csv text and the json structure, each serialized by a
deterministic function), depend only on the multiset of directory entries,
not on the order the filesystem enumerates them, because both path lists are
sorted (lines 38-39); so two runs over the same tree with the same git state
produce identical files. -/
theorem c4_deterministic_sorted_order (git : String → GitResult)
    (fs : String → RepoFiles) {e1 e2 : List DirEntry} (h : e1.Perm e2) :
    get_all_repos e1 = get_all_repos e2
    ∧ runPipeline git fs e1 = runPipeline git fs e2 := by
  have h1 : sortStrings ((e1.filter (fun e => e.isDir && e.hasRequirementsTxt)).map DirEntry.path)
      = sortStrings ((e2.filter (fun e => e.isDir && e.hasRequirementsTxt)).map DirEntry.path) :=
    sortStrings_perm_congr ((h.filter _).map _)
  have h2 : sortStrings ((e1.filter (fun e => e.isDir && e.hasPackageJson)).map DirEntry.path)
      = sortStrings ((e2.filter (fun e => e.isDir && e.hasPackageJson)).map DirEntry.path) :=
    sortStrings_perm_congr ((h.filter _).map _)
  have hrepos : get_all_repos e1 = get_all_repos e2 := by
    simp only [get_all_repos, h1, h2]
  exact ⟨hrepos, by unfold runPipeline; rw [hrepos]⟩

/-- Two enumeration orders of the same two repository directories. -/
def entsA : List DirEntry := [⟨"b", true, true, false⟩, ⟨"a", true, false, true⟩]

/-- The other enumeration order of the entries of entsA. -/
def entsB : List DirEntry := [⟨"a", true, false, true⟩, ⟨"b", true, true, false⟩]

/-- Witness for c4_deterministic_sorted_order on two enumeration orders of
the same directories. -/
theorem c4_witness :
    entsA.Perm entsB
    ∧ (get_all_repos entsA = get_all_repos entsB
       ∧ runPipeline gitNone (fun _ => emptyRepoFiles) entsA
           = runPipeline gitNone (fun _ => emptyRepoFiles) entsB) :=
  ⟨by decide, c4_deterministic_sorted_order gitNone (fun _ => emptyRepoFiles) (by decide)⟩

/-! ### Claim C5 -/

theorem rowAllSome_map {row : Row} (h : ∀ c ∈ row, c ≠ none) :
    row.map (fun c => some (c.getD "")) = row := by
  induction row with
  | nil => rfl
  | cons c cs ih =>
      rcases c with _ | s
      · exact absurd rfl (h none (List.mem_cons_self _ _))
      · simp only [List.map_cons, Option.getD_some]
        rw [ih (fun c hc => h c (List.mem_cons_of_mem _ hc))]

theorem map_eq_self_of_mem {α : Type} {l : List α} {f : α → α}
    (h : ∀ a ∈ l, f a = a) : l.map f = l := by
  induction l with
  | nil => rfl
  | cons a as ih =>
      rw [List.map_cons, h a (List.mem_cons_self _ _),
          ih (fun b hb => h b (List.mem_cons_of_mem _ hb))]

/-- The json decode of a create_sbom_data result is exactly its data rows:
every data row has the five cells of a record, so zipping with the header and
projecting the values is the identity. -/
theorem jsonDecodedRows_eq {git : String → GitResult} {fs : String → RepoFiles}
    {repos : Repos} {d : List Row} (h : create_sbom_data git fs repos = .ok d) :
    jsonDecodedRows d = d.drop 1 := by
  obtain ⟨recs, -, rfl⟩ := create_sbom_data_shape h
  unfold jsonDecodedRows
  simp only [List.drop_succ_cons, List.drop_zero, List.headD_cons, List.map_map]
  exact List.map_congr_left fun r _ => rfl

/-- C5 (amended): the json and csv decodes of one run agree once an absent
version (JSON null) is read back as the empty string - which is how the csv
writer serializes Python None - and they are identical verbatim when every
cell is present.  They differ exactly on records with an absent version, as
c5_counterexample_none_version shows. -/
theorem c5_roundtrip_modulo_none {git : String → GitResult}
    {fs : String → RepoFiles} {repos : Repos} {d : List Row}
    (h : create_sbom_data git fs repos = .ok d) :
    ((jsonDecodedRows d).map (fun row => row.map (fun c => c.getD ""))
        = csvDecodedRows d)
    ∧ ((∀ row ∈ d.drop 1, ∀ c ∈ row, c ≠ none) →
        jsonDecodedRows d = (csvDecodedRows d).map (fun row => row.map some)) := by
  have hj := jsonDecodedRows_eq h
  constructor
  · rw [hj]
    rfl
  · intro hall
    rw [hj]
    unfold csvDecodedRows
    rw [List.map_map]
    symm
    apply map_eq_self_of_mem
    intro row hrow
    show (row.map (fun c => c.getD "")).map some = row
    rw [List.map_map]
    exact rowAllSome_map (hall row hrow)

/-- A pip repository whose requirements line "flask==" produces a record with
version None (operator present, empty version string, lines 137-140). -/
def fsC5 : String → RepoFiles := fun p =>
  if p = "r" then ⟨["flask=="], [], none⟩ else emptyRepoFiles

/-- The sbom_data of the fsC5 run: one data row with version None. -/
def dC5 : List Row :=
  [headerRow, [some "flask", none, some "pip", some "r/requirements.txt", some ""]]

/-- C5 counterexample: a run that writes output (one data row, version None)
whose decoded json sequence differs from the decoded csv sequence - json
yields null for the version while csv yields the empty string. -/
theorem c5_counterexample_none_version :
    create_sbom_data gitNone fsC5 ⟨["r"], []⟩ = .ok dC5
    ∧ (∃ s, create_sbom_csv dC5 = some s)
    ∧ (∃ j, create_sbom_json dC5 = some j)
    ∧ jsonDecodedRows dC5 ≠ (csvDecodedRows dC5).map (fun row => row.map some) :=
  ⟨rfl, ⟨_, rfl⟩, ⟨_, rfl⟩, by decide⟩

/-- A pip repository whose single record has a present version. -/
def fsC5w : String → RepoFiles := fun p =>
  if p = "w" then ⟨["torch==2.1"], [], none⟩ else emptyRepoFiles

/-- The sbom_data of the fsC5w run. -/
def dC5w : List Row :=
  [headerRow, recordRow ⟨"torch", some "==2.1", "pip", "w/requirements.txt", ""⟩]

/-- Witness for c5_roundtrip_modulo_none on a run with every version
present. -/
theorem c5_witness :
    (create_sbom_data gitNone fsC5w ⟨["w"], []⟩ = .ok dC5w)
    ∧ (((jsonDecodedRows dC5w).map (fun row => row.map (fun c => c.getD ""))
          = csvDecodedRows dC5w)
       ∧ ((∀ row ∈ dC5w.drop 1, ∀ c ∈ row, c ≠ none) →
           jsonDecodedRows dC5w = (csvDecodedRows dC5w).map (fun row => row.map some)))
    ∧ (∀ row ∈ dC5w.drop 1, ∀ c ∈ row, c ≠ none)
    ∧ jsonDecodedRows dC5w = (csvDecodedRows dC5w).map (fun row => row.map some) := by
  have hmain := @c5_roundtrip_modulo_none gitNone fsC5w ⟨["w"], []⟩ dC5w (by rfl)
  have hall : ∀ row ∈ dC5w.drop 1, ∀ c ∈ row, c ≠ none := by decide
  exact ⟨by rfl, hmain, hall, hmain.2 hall⟩

/-! ### Claim C10 -/

/-- C10: a packages key that is non-empty, not dev-marked, and contains no
"node_modules/" separator (for example a workspace entry "packages/app")
makes the [1] subscript of line 95 raise IndexError: the resolver returns the
error - aborting the whole assembly rather than skipping or logging the
entry - and so does create_sbom_data. -/
theorem c10_missing_separator_aborts {git : String → GitResult}
    {fs : String → RepoFiles} {repos : Repos} {repoPath key : String}
    {info : PackageInfo} {lock : LockData}
    (hrepo : repoPath ∈ repos.package_json_repos)
    (hlock : (fs repoPath).lock = some lock)
    (hmem : (key, info) ∈ lock.packages)
    (hk : key ≠ "") (hdev : info.dev ≠ some true)
    (hsplit : splitIndex1 key = none) :
    get_indirect_dependencies git fs repos.package_json_repos = .error indexError
    ∧ create_sbom_data git fs repos = .error indexError := by
  have hne := get_indirect_ne_ok git fs repoPath key info lock hlock hmem hk hdev hsplit
    repos.package_json_repos hrepo
  rcases get_indirect_ok_or_error git fs repos.package_json_repos with ⟨l, hl⟩ | hl
  · exact absurd hl (hne l)
  · refine ⟨hl, ?_⟩
    unfold create_sbom_data sbom_records
    simp only [hl]

/-- A lockfile holding a workspace-style key with no "node_modules/"
separator. -/
def lockC10 : LockData :=
  ⟨[("", ⟨none, none, []⟩), ("packages/app", ⟨some "1.0.0", none, []⟩)]⟩

/-- The npm repository carrying lockC10. -/
def fsC10 : String → RepoFiles := fun p =>
  if p = "a" then ⟨[], [], some lockC10⟩ else emptyRepoFiles

/-- Witness for c10_missing_separator_aborts at the key "packages/app". -/
theorem c10_witness :
    (("a" : String) ∈ (Repos.mk [] ["a"]).package_json_repos
     ∧ (fsC10 "a").lock = some lockC10
     ∧ ("packages/app", (⟨some "1.0.0", none, []⟩ : PackageInfo)) ∈ lockC10.packages
     ∧ ("packages/app" : String) ≠ ""
     ∧ (⟨some "1.0.0", none, []⟩ : PackageInfo).dev ≠ some true
     ∧ splitIndex1 "packages/app" = none)
    ∧ (get_indirect_dependencies gitNone fsC10 (Repos.mk [] ["a"]).package_json_repos
          = .error indexError
       ∧ create_sbom_data gitNone fsC10 (Repos.mk [] ["a"]) = .error indexError) :=
  ⟨⟨by decide, rfl, by decide, by decide, by decide, rfl⟩,
   @c10_missing_separator_aborts gitNone fsC10 (Repos.mk [] ["a"]) "a" "packages/app"
     ⟨some "1.0.0", none, []⟩ lockC10 (by decide) rfl (by decide) (by decide) (by decide) rfl⟩

/-- The sbom_data produced for fsC7: header plus one data row. -/
def dC7 : List Row :=
  [headerRow, recordRow ⟨"requests", some "==2.0", "pip", "r/requirements.txt", ""⟩]

/-- Witness for c7_writers_skip_iff_no_rows on a run with one data row. -/
theorem c7_witness :
    (create_sbom_data gitNone fsC7 ⟨["r"], []⟩ = .ok dC7)
    ∧ ((dC7.drop 1 = [] → create_sbom_csv dC7 = none ∧ create_sbom_json dC7 = none)
        ∧ (dC7.drop 1 ≠ [] → (∃ s, create_sbom_csv dC7 = some s)
            ∧ ∃ j, create_sbom_json dC7 = some j)) :=
  ⟨rfl, @c7_writers_skip_iff_no_rows gitNone fsC7 ⟨["r"], []⟩ dC7 (by rfl)⟩

end Sbom
